import Mathlib

/-!
# Verification of the mindloom task recurrence / next-task selection engine

Shallow embedding of the Python sources `src/tasks.py`, `src/task_selector.py`,
`src/utils/recurrence.py` and `src/utils/tasks.py` (the task recurrence and
"next task" selection core), together with theorems settling the claims of the
specification against it.

Modelling conventions:
* Python `datetime.date` is modelled by the `Date` structure (proleptic
  Gregorian year/month/day) with Python's lexicographic comparison semantics;
  `date + timedelta(days=n)` is modelled by iterated calendar successor
  (`Date.addDays`), which agrees with ordinal arithmetic on valid dates.
* `dateutil.relativedelta` month/year shifts and its weekday-jump operator are
  modelled directly from dateutil's documented arithmetic (`__radd__`):
  months are added with wraparound into the year and the day-of-month is
  clamped to the target month's length; a `weekday(n)` jump from a date moves
  to the n-th such weekday on-or-after (n positive) or on-or-before
  (n negative) the date.
* `date.fromisoformat` is modelled for the `YYYY-MM-DD` form (the only form
  this repository ever writes, via `date.isoformat`); any other string is
  rejected, as Python rejects malformed strings with `ValueError` (modelled
  as `none`).
* Python dict-based task records are modelled by the `Task` structure whose
  fields carry the value shapes the repository actually stores: dates arrive
  from YAML either as `datetime.date` values or as strings (`DVal`),
  `energy_cost` as an int or a string (`EVal`), and a `recurrence` key that is
  absent, `None`, or a string (`RecVal`).  Python truthiness of those values
  is modelled explicitly (`dvalTruthy`, `recTruthy`).
* Code that can raise is modelled with `Except`/`Option` results; the file
  I/O around the completion log is modelled by passing the entry list
  explicitly.
-/

namespace Mindloom

/-! ## Calendar dates (datetime.date) -/

/-- Proleptic Gregorian leap-year test, as in `calendar.isleap`. -/
def isLeap (y : Nat) : Bool :=
  (y % 4 == 0 && y % 100 != 0) || y % 400 == 0

/-- Number of days in a month, as in `calendar.monthrange(y, m)[1]`. -/
def daysInMonth (y m : Nat) : Nat :=
  match m with
  | 1 => 31 | 2 => if isLeap y then 29 else 28 | 3 => 31 | 4 => 30
  | 5 => 31 | 6 => 30 | 7 => 31 | 8 => 31 | 9 => 30 | 10 => 31
  | 11 => 30 | 12 => 31
  | _ => 0

/-- A calendar date; mirrors `datetime.date` (year, month, day). -/
structure Date where
  year : Nat
  month : Nat
  day : Nat
deriving Repr, DecidableEq

/-- The date is representable as a Python `datetime.date`. -/
def Date.Valid (d : Date) : Prop :=
  1 ≤ d.year ∧ 1 ≤ d.month ∧ d.month ≤ 12 ∧ 1 ≤ d.day ∧
    d.day ≤ daysInMonth d.year d.month

instance (d : Date) : Decidable d.Valid := by
  unfold Date.Valid; infer_instance

/-- Python compares `date` values lexicographically on (year, month, day). -/
def Date.blt (a b : Date) : Bool :=
  a.year < b.year ||
    (a.year == b.year &&
      (a.month < b.month || (a.month == b.month && a.day < b.day)))

/-- Python `a <= b` on dates. -/
def Date.ble (a b : Date) : Bool :=
  Date.blt a b || a == b

/-- `datetime.date.max`, the sentinel used for missing due dates. -/
def dateMax : Date := ⟨9999, 12, 31⟩

/-- Calendar successor: the day after `d`. -/
def nextDay (d : Date) : Date :=
  if d.day < daysInMonth d.year d.month then ⟨d.year, d.month, d.day + 1⟩
  else if d.month < 12 then ⟨d.year, d.month + 1, 1⟩
  else ⟨d.year + 1, 1, 1⟩

/-- Calendar predecessor: the day before `d`. -/
def prevDay (d : Date) : Date :=
  if 1 < d.day then ⟨d.year, d.month, d.day - 1⟩
  else if 1 < d.month then ⟨d.year, d.month - 1, daysInMonth d.year (d.month - 1)⟩
  else ⟨d.year - 1, 12, 31⟩

/-- `d + timedelta(days=n)` for `n ≥ 0`, as iterated calendar successor. -/
def Date.addDays (d : Date) : Nat → Date
  | 0 => d
  | n + 1 => nextDay (Date.addDays d n)

/-- `d - timedelta(days=n)` for `n ≥ 0`, as iterated calendar predecessor. -/
def Date.subDays (d : Date) : Nat → Date
  | 0 => d
  | n + 1 => prevDay (Date.subDays d n)

/-- Days strictly before year `y` in the proleptic Gregorian calendar
(`datetime._days_before_year`). -/
def daysBeforeYear (y : Nat) : Nat :=
  (y - 1) * 365 + (y - 1) / 4 - (y - 1) / 100 + (y - 1) / 400

/-- Days of year `y` strictly before month `m`
(`datetime._days_before_month`). -/
def daysBeforeMonth (y m : Nat) : Nat :=
  let leap := if isLeap y then 1 else 0
  match m with
  | 1 => 0 | 2 => 31 | 3 => 59 + leap | 4 => 90 + leap | 5 => 120 + leap
  | 6 => 151 + leap | 7 => 181 + leap | 8 => 212 + leap | 9 => 243 + leap
  | 10 => 273 + leap | 11 => 304 + leap | 12 => 334 + leap
  | _ => 0

/-- `date.toordinal()`: day 1 is 0001-01-01. -/
def Date.toOrdinal (d : Date) : Nat :=
  daysBeforeYear d.year + daysBeforeMonth d.year d.month + d.day

/-- `date.weekday()`: Monday is 0 (0001-01-01 was a Monday). -/
def Date.weekday (d : Date) : Nat :=
  (d.toOrdinal + 6) % 7

/-- `relativedelta(months=k)` for `1 ≤ k ≤ 12` (the only uses here are
`k ∈ {1, 3, 6}`): shift the month with wraparound into the next year and clamp
the day to the target month's length, exactly as in
`dateutil.relativedelta.__radd__`. -/
def addMonths (d : Date) (k : Nat) : Date :=
  let m := d.month + k
  if m > 12 then ⟨d.year + 1, m - 12, min (daysInMonth (d.year + 1) (m - 12)) d.day⟩
  else ⟨d.year, m, min (daysInMonth d.year m) d.day⟩

/-- `relativedelta(years=k)`: shift the year and clamp the day to the target
month's length (`dateutil.relativedelta.__radd__`). -/
def addYears (d : Date) (k : Nat) : Date :=
  ⟨d.year + k, d.month, min (daysInMonth (d.year + k) d.month) d.day⟩

/-! ### ISO format -/

def digitChar (n : Nat) : Char := Char.ofNat (48 + n)

/-- Zero-padded two-digit decimal rendering (for `n < 100`). -/
def pad2 (n : Nat) : List Char := [digitChar (n / 10 % 10), digitChar (n % 10)]

/-- Zero-padded four-digit decimal rendering (for `n < 10000`). -/
def pad4 (n : Nat) : List Char :=
  [digitChar (n / 1000 % 10), digitChar (n / 100 % 10),
   digitChar (n / 10 % 10), digitChar (n % 10)]

/-- `date.isoformat()`: `YYYY-MM-DD`. -/
def Date.isoformat (d : Date) : String :=
  ⟨pad4 d.year ++ '-' :: pad2 d.month ++ '-' :: pad2 d.day⟩

def digitVal (c : Char) : Nat := c.toNat - 48

/-- `date.fromisoformat` on the `YYYY-MM-DD` format: parse and range-check as
the `date` constructor does; anything else raises `ValueError`, modelled as
`none`.  (Later Python versions also accept some alternative ISO-8601 forms;
the repository only ever produces and stores the dashed form.) -/
def date_fromisoformat (s : String) : Option Date :=
  match s.data with
  | [y1, y2, y3, y4, dash1, m1, m2, dash2, d1, d2] =>
    if dash1 = '-' && dash2 = '-' &&
       y1.isDigit && y2.isDigit && y3.isDigit && y4.isDigit &&
       m1.isDigit && m2.isDigit && d1.isDigit && d2.isDigit then
      let y := digitVal y1 * 1000 + digitVal y2 * 100 + digitVal y3 * 10 + digitVal y4
      let m := digitVal m1 * 10 + digitVal m2
      let d := digitVal d1 * 10 + digitVal d2
      if 1 ≤ y && 1 ≤ m && m ≤ 12 && 1 ≤ d && d ≤ daysInMonth y m then
        some ⟨y, m, d⟩
      else none
    else none
  | _ => none

/-! ## Python string helpers -/

/-- Python `str` whitespace (`\s` over ASCII): space, tab, newline, carriage
return, vertical tab, form feed. -/
def pySpace (c : Char) : Bool :=
  c = ' ' || c = '\t' || c = '\n' || c = '\r' || c = '\x0b' || c = '\x0c'

/-- ASCII lower-casing of one character; on the ASCII strings this repository
handles, Python's `str.lower` and `str.casefold` both act this way. -/
def lowerChar (c : Char) : Char :=
  if 'A' ≤ c && c ≤ 'Z' then Char.ofNat (c.toNat + 32) else c

/-- Python `str.lower` (ASCII fragment). -/
def pyLower (s : String) : String := ⟨s.data.map lowerChar⟩

/-- Python `str.strip()` (ASCII whitespace fragment). -/
def pyStrip (s : String) : String :=
  ⟨(s.data.dropWhile pySpace).reverse.dropWhile pySpace |>.reverse⟩

/-- Python `str.split()` (split on whitespace runs, dropping empty parts). -/
def pySplitWs (s : String) : List String :=
  ((s.data.splitOnP pySpace).map (fun cs => (⟨cs⟩ : String))).filter
    (fun t => !t.isEmpty)

/-- Python `int(s)` on a decimal string: optional surrounding whitespace,
optional sign, at least one ASCII digit.  (Python additionally accepts
underscore digit grouping and non-ASCII digits; those are outside the
model.)  Returns `none` where Python raises `ValueError`. -/
def pyInt (s : String) : Option Int :=
  let cs := (s.data.dropWhile pySpace).reverse.dropWhile pySpace |>.reverse
  let (neg, digits) :=
    match cs with
    | '-' :: rest => (true, rest)
    | '+' :: rest => (false, rest)
    | rest => (false, rest)
  if digits ≠ [] && digits.all Char.isDigit then
    let n := digits.foldl (fun acc c => acc * 10 + digitVal c) 0
    some (if neg then -(n : Int) else (n : Int))
  else none

/-! ## Recurrence normalizer (`utils/recurrence.py`) -/

/-- Match a fixed word case-insensitively as a prefix, returning the rest. -/
def matchWordCI : List Char → List Char → Option (List Char)
  | [], cs => some cs
  | _, [] => none
  | w :: ws, c :: cs => if lowerChar c = w then matchWordCI ws cs else none

/-- Match one-or-more whitespace characters (`\s+`), returning the rest. -/
def matchSpaces1 (cs : List Char) : Option (List Char) :=
  match cs with
  | c :: rest => if pySpace c then some (rest.dropWhile pySpace) else none
  | [] => none

/-- Match one-or-more ASCII digits (`\d+`), returning their value and the
rest. -/
def matchDigits1 (cs : List Char) : Option (Nat × List Char) :=
  let digits := cs.takeWhile Char.isDigit
  if digits = [] then none
  else some (digits.foldl (fun acc c => acc * 10 + digitVal c) 0,
             cs.dropWhile Char.isDigit)

/-- `SUPPORTED_KEYWORDS` from `utils/recurrence.py`. -/
def SUPPORTED_KEYWORDS : List String :=
  ["daily", "weekly", "bi-weekly", "monthly", "quarterly", "bi-annual",
   "yearly"]

/-- `_INTERVAL_PATTERN` of `utils/recurrence.py`:
`^\s*(?:every\s+)?(\d+)\s+days?\s*$` (IGNORECASE), returning the captured
count.  (The two alternatives — with and without the `every` prefix — are
mutually exclusive because a digit cannot start `every`.) -/
def matchIntervalUtils (s : String) : Option Nat :=
  let cs := s.data.dropWhile pySpace
  let afterEvery :=
    match matchWordCI "every".data cs with
    | some rest => matchSpaces1 rest
    | none => none
  let body := afterEvery.getD cs
  match matchDigits1 body with
  | none => none
  | some (count, rest) =>
    match matchSpaces1 rest with
    | none => none
    | some rest =>
      match matchWordCI "day".data rest with
      | none => none
      | some rest =>
        let rest := match rest with
                    | c :: tl => if lowerChar c = 's' then tl else rest
                    | [] => rest
        if rest.dropWhile pySpace = [] then some count else none

def ORDINAL_WORDS : List String :=
  ["first", "second", "third", "fourth", "last"]

def WEEKDAY_WORDS : List String :=
  ["monday", "tuesday", "wednesday", "thursday", "friday", "saturday",
   "sunday"]

/-- Match one word of `words` case-insensitively, returning the canonical
lowercase word and the rest.  The word lists used here are prefix-free, so
trying the alternatives in order is equivalent to the regex alternation. -/
def matchAltCI (words : List String) (cs : List Char) :
    Option (String × List Char) :=
  match words with
  | [] => none
  | w :: ws =>
    match matchWordCI w.data cs with
    | some rest => some (w, rest)
    | none => matchAltCI ws cs

/-- `_ORDINAL_PATTERN` of `utils/recurrence.py`:
`^\s*(first|second|third|fourth|last)\s+(monday|...|sunday)\s*$`
(IGNORECASE), returning the captured words lower-cased. -/
def matchOrdinalUtils (s : String) : Option (String × String) :=
  let cs := s.data.dropWhile pySpace
  match matchAltCI ORDINAL_WORDS cs with
  | none => none
  | some (ow, rest) =>
    match matchSpaces1 rest with
    | none => none
    | some rest =>
      match matchAltCI WEEKDAY_WORDS rest with
      | none => none
      | some (ww, rest) =>
        if rest.dropWhile pySpace = [] then some (ow, ww) else none

/-- `normalize_recurrence_value` from `utils/recurrence.py`. -/
def normalize_recurrence_value (value : Option String) : Option String :=
  match value with
  | none => none
  | some v =>
    let candidate := pyStrip v
    if candidate.isEmpty then none
    else
      let normalized := pyLower candidate
      if SUPPORTED_KEYWORDS.contains normalized then some normalized
      else
        match matchIntervalUtils candidate with
        | some count =>
          if count ≥ 1 then some ("every " ++ toString count ++ " days")
          else
            match matchOrdinalUtils candidate with
            | some (ow, ww) => some (ow ++ " " ++ ww)
            | none => none
        | none =>
          match matchOrdinalUtils candidate with
          | some (ow, ww) => some (ow ++ " " ++ ww)
          | none => none

/-! ## Recurrence advancer (`tasks.py`) -/

/-- A `dateutil.relativedelta` value as used in
`CALENDAR_RECURRENCE_DELTAS`. -/
inductive CalDelta where
  | months (k : Nat)
  | years (k : Nat)
deriving Repr, DecidableEq

/-- `base + delta` for the deltas of `CALENDAR_RECURRENCE_DELTAS`. -/
def applyCalDelta (base : Date) : CalDelta → Date
  | .months k => addMonths base k
  | .years k => addYears base k

/-- The `CALENDAR_RECURRENCE_DELTAS` dict of `tasks.py` (dict `.get`). -/
def CALENDAR_RECURRENCE_DELTAS (s : String) : Option CalDelta :=
  if s = "monthly" then some (.months 1)
  else if s = "quarterly" then some (.months 3)
  else if s = "bi-annual" then some (.months 6)
  else if s = "yearly" then some (.years 1)
  else none

/-- The `RECURRENCE_DAYS` dict of `tasks.py` (dict `.get`).  The month-based
keys are shadowed at the use site by `CALENDAR_RECURRENCE_DELTAS`, which is
consulted first. -/
def RECURRENCE_DAYS (s : String) : Option Nat :=
  if s = "daily" then some 1
  else if s = "weekly" then some 7
  else if s = "bi-weekly" then some 14
  else if s = "monthly" then some 30
  else if s = "quarterly" then some 91
  else if s = "bi-annual" then some 182
  else if s = "yearly" then some 365
  else none

/-- `_parse_interval_days` of `tasks.py`: `^every\s+(\d+)\s+days$`
(IGNORECASE), returning the count when it is at least 1. -/
def parse_interval_days (value : String) : Option Nat :=
  match matchWordCI "every".data value.data with
  | none => none
  | some rest =>
    match matchSpaces1 rest with
    | none => none
    | some rest =>
      match matchDigits1 rest with
      | none => none
      | some (count, rest) =>
        match matchSpaces1 rest with
        | none => none
        | some rest =>
          match matchWordCI "days".data rest with
          | none => none
          | some rest =>
            if rest = [] then (if count ≥ 1 then some count else none)
            else none

/-- The `_ORDINALS` dict of `tasks.py` (`last` maps to `-1`). -/
def ORDINALS (s : String) : Option Int :=
  if s = "first" then some 1
  else if s = "second" then some 2
  else if s = "third" then some 3
  else if s = "fourth" then some 4
  else if s = "last" then some (-1)
  else none

/-- The `_WEEKDAY_MAP` dict of `tasks.py`; the dateutil weekday classes are
represented by their weekday numbers (`MO = 0`, …, `SU = 6`). -/
def WEEKDAY_MAP (s : String) : Option Nat :=
  if s = "monday" then some 0
  else if s = "tuesday" then some 1
  else if s = "wednesday" then some 2
  else if s = "thursday" then some 3
  else if s = "friday" then some 4
  else if s = "saturday" then some 5
  else if s = "sunday" then some 6
  else none

/-- `_parse_monthly_ordinal` of `tasks.py`. -/
def parse_monthly_ordinal (value : String) : Option (Int × Nat) :=
  match pySplitWs value with
  | [ordinal_word, weekday_word] =>
    match ORDINALS ordinal_word, WEEKDAY_MAP weekday_word with
    | some o, some w => some (o, w)
    | _, _ => none
  | _ => none

/-- `_nth_weekday_of_month` of `tasks.py`:
`date(year, month, 1) + relativedelta(weekday=weekday_cls(ordinal))`.
The dateutil weekday jump from the month's first day moves forward to the
`ordinal`-th such weekday on-or-after it (positive ordinal) or backward to
the `|ordinal|`-th such weekday on-or-before it (negative ordinal), per
`relativedelta.__radd__`. -/
def nth_weekday_of_month (year month : Nat) (ordinal : Int) (w : Nat) : Date :=
  let start : Date := ⟨year, month, 1⟩
  if ordinal > 0 then
    start.addDays ((ordinal.toNat - 1) * 7 + (7 - start.weekday + w) % 7)
  else
    start.subDays ((ordinal.natAbs - 1) * 7 + (start.weekday + 7 - w) % 7)

/-- `_next_monthly_weekday` of `tasks.py`. -/
def next_monthly_weekday (base : Date) (ordinal : Int) (w : Nat) : Date :=
  let candidate := nth_weekday_of_month base.year base.month ordinal w
  if candidate.ble base then
    let next_month := addMonths base 1
    nth_weekday_of_month next_month.year next_month.month ordinal w
  else candidate

/-- `_advance_for_recurrence` of `tasks.py`.  (Its initial `if not base`
guard only fires when `base` is `None`; here `base` is always a date, which
is always truthy in Python.) -/
def advance_for_recurrence (base : Date) (recurrence : String) : Option Date :=
  match normalize_recurrence_value (some recurrence) with
  | none => none
  | some normalized =>
    match CALENDAR_RECURRENCE_DELTAS normalized with
    | some calendar_delta => some (applyCalDelta base calendar_delta)
    | none =>
      match RECURRENCE_DAYS normalized with
      | some days => some (base.addDays days)
      | none =>
        match parse_interval_days normalized with
        | some interval_days => some (base.addDays interval_days)
        | none =>
          match parse_monthly_ordinal normalized with
          | some (ordinal_value, weekday_cls) =>
            some (next_monthly_weekday base ordinal_value weekday_cls)
          | none => none

/-! ## Task records -/

/-- A date-like field value: YAML hands the code either a `datetime.date`
(unquoted ISO dates) or a string. -/
inductive DVal where
  | d (dt : Date)
  | s (str : String)
deriving Repr, DecidableEq

/-- Python truthiness of a date-like value: dates are always truthy, strings
are truthy when non-empty. -/
def dvalTruthy : DVal → Bool
  | .d _ => true
  | .s str => !str.isEmpty

/-- Python `str()` of a date-like value (`str(date)` is its isoformat). -/
def dvalStr : DVal → String
  | .d dt => dt.isoformat
  | .s str => str

/-- Python `a or b` over optional date-like values. -/
def pyOrD (a b : Option DVal) : Option DVal :=
  match a with
  | some v => if dvalTruthy v then some v else b
  | none => b

/-- An `energy_cost` field value: an int or a string. -/
inductive EVal where
  | i (n : Int)
  | s (str : String)
deriving Repr, DecidableEq

/-- A `recurrence` field value: key absent, YAML `null`, or a string. -/
inductive RecVal where
  | absent
  | null
  | str (s : String)
deriving Repr, DecidableEq

/-- Python truthiness of `task.get("recurrence")`. -/
def recTruthy : RecVal → Bool
  | .absent => false
  | .null => false
  | .str s => !s.isEmpty

/-- Python `str(task.get("recurrence", ""))` (`str(None)` is `"None"`). -/
def recStr : RecVal → String
  | .absent => ""
  | .null => "None"
  | .str s => s

/-- Python `str(x or default)` for an optional string field. -/
def strOr (v : Option String) (default : String) : String :=
  match v with
  | some s => if s.isEmpty then default else s
  | none => default

/-- A task record, with the fields the recurrence/selection core reads or
writes.  Unknown extra keys pass through the code untouched and are not
modelled. -/
structure Task where
  id : Option Int := none
  title : Option String := none
  project : Option String := none
  area : Option String := none
  status : Option String := none
  due : Option DVal := none
  recurrence : RecVal := .absent
  last_completed : Option DVal := none
  energy_cost : Option EVal := none
  effort : Option String := none
  executive_trigger : Option String := none
  next_due : Option DVal := none
  due_today : Option Bool := none
deriving Repr, DecidableEq

/-- The `_parse_date` closure inside `_next_due` (tasks.py): a date passes
through, a string is ISO-parsed with `ValueError` mapped to `None`, anything
else is `None`. -/
def parse_date : Option DVal → Option Date
  | some (.d dt) => some dt
  | some (.s str) => date_fromisoformat str
  | none => none

/-- `_next_due` of `tasks.py`. -/
def next_due (task : Task) (today : Date) : Date :=
  let recurrence := pyLower (recStr task.recurrence)
  if recurrence.isEmpty then today
  else
    let due_date := parse_date task.due
    let last_completed_date := parse_date task.last_completed
    let recurrence_date :=
      advance_for_recurrence (last_completed_date.getD today) recurrence
    match due_date with
    | some dd =>
      if (match last_completed_date with
          | none => true
          | some lc => Date.blt lc dd) then dd
      else recurrence_date.getD today
    | none => recurrence_date.getD today

/-! ## Completion recorder -/

/-- `resolve_energy_cost` of `utils/tasks.py` with the default
`ENERGY_MAPPING = {"low": 1, "medium": 3, "high": 5}`. -/
def resolve_energy_cost (task : Task) : Int :=
  let effortCost :=
    let effort := pyLower (strOr task.effort "low")
    if effort = "low" then 1
    else if effort = "medium" then 3
    else if effort = "high" then 5
    else 1
  match task.energy_cost with
  | none => effortCost
  | some (.i n) => n
  | some (.s s) =>
    match pyInt s with
    | some n => n
    | none => effortCost

/-- A completion-log entry as built by `record_task_completion`. -/
structure CompletionEntry where
  task_id : Option Int
  title : String
  project : String
  area : String
  due : String
  completed_at : String
  energy_cost : Int
deriving Repr, DecidableEq

/-- `_normalize_completion_timestamp` of `tasks.py`. -/
def normalize_completion_timestamp : Option DVal → Option String
  | some (.d dt) => some dt.isoformat
  | some (.s str) =>
    let candidate := pyStrip str
    if candidate.isEmpty then none else some candidate
  | none => none

/-- `record_task_completion` of `tasks.py`; the YAML completion-log file is
modelled by the explicit `log` list. -/
def record_task_completion (task : Task) (completed_at : Option DVal)
    (log : List CompletionEntry) : List CompletionEntry :=
  match normalize_completion_timestamp (pyOrD completed_at task.last_completed) with
  | none => log
  | some timestamp =>
    let entry : CompletionEntry :=
      { task_id := task.id
        title := strOr task.title "Task"
        project := strOr task.project ""
        area := strOr task.area ""
        due := (match pyOrD task.due none with
                | some v => dvalStr v
                | none => "")
        completed_at := timestamp
        energy_cost := resolve_energy_cost task }
    if log.any (fun item =>
        item.task_id == entry.task_id && item.completed_at == entry.completed_at)
    then log
    else log ++ [entry]

/-- `complete_task` of `tasks.py` (in-place task mutation and log append
modelled by returning the updated task and log). -/
def complete_task (task : Task) (today : Date)
    (log : List CompletionEntry) : Task × List CompletionEntry :=
  let iso_today := today.isoformat
  let task1 : Task := { task with last_completed := some (.s iso_today) }
  let log1 := record_task_completion task1 (some (.s iso_today)) log
  if recTruthy task1.recurrence then
    let task2 : Task := { task1 with status := some "active" }
    let nd := next_due task2 today
    ({ task2 with due := some (.s nd.isoformat) }, log1)
  else
    ({ task1 with status := some "complete" }, log1)

/-! ## Read-path annotation (`apply_recurrence`) -/

/-- The body of `apply_recurrence`'s loop for one task.  The non-recurring
branch calls `date.fromisoformat(str(task["due"]))` without a guard, so a
malformed due string raises `ValueError` (modelled as `.error`). -/
def apply_recurrence_step (today : Date) (task : Task) : Except String Task :=
  if recTruthy task.recurrence then
    let nd := next_due task today
    .ok { task with next_due := some (.s nd.isoformat)
                    due_today := some (nd.ble today) }
  else
    match task.due with
    | some dv =>
      if dvalTruthy dv then
        match date_fromisoformat (dvalStr dv) with
        | some due_date => .ok { task with due_today := some (due_date.ble today) }
        | none => .error "ValueError: invalid isoformat string"
      else .ok { task with due_today := some false }
    | none => .ok { task with due_today := some false }

/-- `apply_recurrence` of `tasks.py`: annotate every task, propagating a
`ValueError` raised part-way. -/
def apply_recurrence (tasks : List Task) (today : Date) :
    Except String (List Task) :=
  match tasks with
  | [] => .ok []
  | t :: rest =>
    match apply_recurrence_step today t with
    | .error e => .error e
    | .ok t' =>
      match apply_recurrence rest today with
      | .error e => .error e
      | .ok rest' => .ok (t' :: rest')

/-! ## Next-task selector (`task_selector.py`) -/

/-- `MOOD_ENERGY_TARGETS` (dict `.get`). -/
def MOOD_ENERGY_TARGETS (s : String) : Option Int :=
  if s = "sad" then some 1
  else if s = "meh" then some 2
  else if s = "okay" then some 3
  else if s = "joyful" then some 5
  else none

/-- `EXECUTIVE_TRIGGER_WEIGHTS` (dict `.get`). -/
def EXECUTIVE_TRIGGER_WEIGHTS (s : String) : Option Int :=
  if s = "low" then some 0
  else if s = "medium" then some 1
  else if s = "high" then some 2
  else none

/-- `MOOD_EXECUTIVE_TOLERANCE` (dict `.get`). -/
def MOOD_EXECUTIVE_TOLERANCE (s : String) : Option Int :=
  if s = "sad" then some 0
  else if s = "meh" then some 1
  else if s = "okay" then some 1
  else if s = "joyful" then some 2
  else none

def DEFAULT_EXECUTIVE_TOLERANCE : Int := 1

/-- `effective_energy_level` of `task_selector.py`.  The `values` list
collects the signals that survive `int()` coercion — both `energy_level` and
the looked-up mood target are already ints, so each contributes exactly when
present; the combined value is then clamped with `max(0, ·)`. -/
def effective_energy_level (energy_level : Option Int) (mood : Option String)
    (default : Int) : Int :=
  let mood_key := pyLower (pyStrip (mood.getD ""))
  let mood_target := MOOD_ENERGY_TARGETS mood_key
  let values :=
    (match energy_level with | some n => [n] | none => []) ++
    (match mood_target with | some n => [n] | none => [])
  match values with
  | [] => default
  | [v] => max 0 v
  | a :: b :: _ => max 0 (min a b)

/-- `_due_date_value` of `task_selector.py`: parse `next_due or due`,
falling back to `date.max` when the value is missing, falsy, or
unparseable. -/
def due_date_value (task : Task) : Date :=
  match pyOrD task.next_due task.due with
  | none => dateMax
  | some date_str =>
    if dvalTruthy date_str then
      (date_fromisoformat (dvalStr date_str)).getD dateMax
    else dateMax

/-- `_energy_cost` of `task_selector.py`: `int(task.get("energy_cost"))`
with `TypeError`/`ValueError` mapped to `None`. -/
def energy_cost_of (task : Task) : Option Int :=
  match task.energy_cost with
  | none => none
  | some (.i n) => some n
  | some (.s str) => pyInt str

/-- `_executive_weight` of `task_selector.py`. -/
def executive_weight (task : Task) : Option Int :=
  match task.executive_trigger with
  | none => none
  | some value => EXECUTIVE_TRIGGER_WEIGHTS (pyLower (pyStrip value))

/-- The reasoning record returned alongside a selection. -/
structure Reasoning where
  due_date : Option String
  energy_penalty : Int
  executive_penalty : Int
  total_score : Int
deriving Repr, DecidableEq

/-- The Python sort-key tuple
`(due, total_penalty, energy_penalty, executive_penalty, cost-or-target,
weight-or-tolerance)`. -/
structure ScoreKey where
  due : Date
  total_penalty : Int
  energy_penalty : Int
  executive_penalty : Int
  cost_or_target : Int
  weight_or_tolerance : Int
deriving Repr, DecidableEq

/-- Python's lexicographic `<` on the sort-key tuple. -/
def keyLt (a b : ScoreKey) : Bool :=
  Date.blt a.due b.due ||
    (a.due == b.due &&
      (a.total_penalty < b.total_penalty ||
        (a.total_penalty == b.total_penalty &&
          (a.energy_penalty < b.energy_penalty ||
            (a.energy_penalty == b.energy_penalty &&
              (a.executive_penalty < b.executive_penalty ||
                (a.executive_penalty == b.executive_penalty &&
                  (a.cost_or_target < b.cost_or_target ||
                    (a.cost_or_target == b.cost_or_target &&
                      a.weight_or_tolerance < b.weight_or_tolerance)))))))))

/-- Score one task: the `(task, reasoning, key)` triple built in the loop of
`select_next_task`. -/
def score_task (target_energy executive_tolerance : Int) (task : Task) :
    Task × Reasoning × ScoreKey :=
  let due := due_date_value task
  let cost := energy_cost_of task
  let energy_penalty :=
    match cost with
    | some c => |c - target_energy|
    | none => 0
  let exec_weight := executive_weight task
  let executive_penalty :=
    match exec_weight with
    | some w => max 0 (w - executive_tolerance)
    | none => 0
  let total_penalty := energy_penalty + executive_penalty
  let reasoning : Reasoning :=
    { due_date := if due ≠ dateMax then some due.isoformat else none
      energy_penalty := energy_penalty
      executive_penalty := executive_penalty
      total_score := total_penalty }
  let key : ScoreKey :=
    { due := due
      total_penalty := total_penalty
      energy_penalty := energy_penalty
      executive_penalty := executive_penalty
      cost_or_target := cost.getD target_energy
      weight_or_tolerance := exec_weight.getD executive_tolerance }
  (task, reasoning, key)

/-- Python `min(..., key=...)`: the first element whose key is minimal. -/
def minByKey (first : Task × Reasoning × ScoreKey)
    (rest : List (Task × Reasoning × ScoreKey)) : Task × Reasoning × ScoreKey :=
  rest.foldl (fun acc x => if keyLt x.2.2 acc.2.2 then x else acc) first

/-- `select_next_task` of `task_selector.py`. -/
def select_next_task (tasks : List Task) (mood : Option String)
    (energy_level : Option Int) : Option Task × Option Reasoning :=
  match tasks with
  | [] => (none, none)
  | t :: rest =>
    let mood_key := pyLower (mood.getD "")
    let target_energy := effective_energy_level energy_level mood 3
    let executive_tolerance :=
      (MOOD_EXECUTIVE_TOLERANCE mood_key).getD DEFAULT_EXECUTIVE_TOLERANCE
    let score := score_task target_energy executive_tolerance
    let best := minByKey (score t) (rest.map score)
    (some best.1, some best.2.1)

/-! ## Order and arithmetic lemmas about `Date` -/

theorem Date.blt_iff (a b : Date) : a.blt b = true ↔
    a.year < b.year ∨ (a.year = b.year ∧
      (a.month < b.month ∨ (a.month = b.month ∧ a.day < b.day))) := by
  simp [Date.blt]

theorem Date.not_ble_iff_blt (a b : Date) : a.ble b = false ↔ b.blt a = true := by
  cases a; cases b
  simp [Date.ble, Date.blt, Date.mk.injEq]
  omega

theorem Date.blt_asymm {a b : Date} (h : a.blt b = true) : b.blt a = false := by
  cases a; cases b
  simp [Date.blt] at h ⊢
  omega

theorem Date.blt_trans {a b c : Date} (h1 : a.blt b = true)
    (h2 : b.blt c = true) : a.blt c = true := by
  cases a; cases b; cases c
  simp [Date.blt] at h1 h2 ⊢
  omega

theorem blt_nextDay (d : Date) : d.blt (nextDay d) = true := by
  cases d with
  | mk y m dy =>
    unfold nextDay
    split
    · simp [Date.blt]
    · split <;> simp [Date.blt] <;> omega

theorem blt_addDays (d : Date) (n : Nat) (hn : 1 ≤ n) :
    d.blt (d.addDays n) = true := by
  induction n with
  | zero => omega
  | succ k ih =>
    show d.blt (nextDay (d.addDays k)) = true
    rcases Nat.eq_zero_or_pos k with hk | hk
    · subst hk; exact blt_nextDay d
    · exact Date.blt_trans (ih hk) (blt_nextDay _)

theorem blt_addMonths (d : Date) (k : Nat) (hk : 1 ≤ k) :
    d.blt (addMonths d k) = true := by
  cases d with
  | mk y m dy =>
    unfold addMonths
    dsimp only
    split_ifs <;> simp [Date.blt] <;> omega

theorem blt_addYears (d : Date) (k : Nat) (hk : 1 ≤ k) :
    d.blt (addYears d k) = true := by
  cases d with
  | mk y m dy =>
    simp [addYears, Date.blt]
    omega

theorem daysInMonth_ge_28 (y m : Nat) (h1 : 1 ≤ m) (h2 : m ≤ 12) :
    28 ≤ daysInMonth y m := by
  interval_cases m <;> simp only [daysInMonth] <;> (try split_ifs) <;> omega

/-- Adding days inside a month leaves year and month fixed and just moves the
day, provided we stay within the month's length. -/
theorem addDays_within_month (d : Date) (n : Nat)
    (hd : 1 ≤ d.day) (h : d.day + n ≤ daysInMonth d.year d.month) :
    d.addDays n = ⟨d.year, d.month, d.day + n⟩ := by
  induction n with
  | zero => simp [Date.addDays]
  | succ k ih =>
    have hk : d.day + k ≤ daysInMonth d.year d.month := by omega
    show nextDay (d.addDays k) = _
    rw [ih hk]
    unfold nextDay
    simp only
    rw [if_pos (by omega), Nat.add_assoc]

/-! ## C3: keyword cadences use calendar month/year arithmetic with
month-end clamping -/

/-- Spec-side statement of "add `k` calendar months, clamping to the last
valid day of the target month when that month has fewer days than
`base.day`". -/
def month_shift_spec (base : Date) (k : Nat) : Date :=
  let m0 := base.month - 1 + k
  let y := base.year + m0 / 12
  let m := m0 % 12 + 1
  ⟨y, m, min base.day (daysInMonth y m)⟩

/-- Spec-side statement of "add one year, clamping to the last valid day of
the target month". -/
def year_shift_spec (base : Date) : Date :=
  ⟨base.year + 1, base.month,
    min base.day (daysInMonth (base.year + 1) base.month)⟩

theorem addMonths_eq_spec (base : Date) (hm1 : 1 ≤ base.month)
    (hm2 : base.month ≤ 12) (k : Nat) (hk1 : 1 ≤ k) (hk2 : k ≤ 12) :
    addMonths base k = month_shift_spec base k := by
  cases base with
  | mk y m dy =>
    unfold addMonths month_shift_spec
    dsimp only at *
    split_ifs with h
    · have h1 : y + (m - 1 + k) / 12 = y + 1 := by omega
      have h2 : (m - 1 + k) % 12 + 1 = m + k - 12 := by omega
      rw [h1, h2]
      simp only [Date.mk.injEq, true_and]
      omega
    · have h1 : y + (m - 1 + k) / 12 = y := by omega
      have h2 : (m - 1 + k) % 12 + 1 = m + k := by omega
      rw [h1, h2]
      simp only [Date.mk.injEq, true_and]
      omega

/-- C3: for every valid base date, advancing by
monthly/quarterly/bi-annual/yearly adds 1/3/6 calendar months or 1 year,
clamping to the last valid day of the target month; in particular
2024-01-31 + monthly = 2024-02-29 and 2023-01-31 + monthly = 2023-02-28. -/
theorem keyword_cadence_advance (base : Date) (hv : base.Valid) :
    advance_for_recurrence base "monthly" = some (month_shift_spec base 1) ∧
    advance_for_recurrence base "quarterly" = some (month_shift_spec base 3) ∧
    advance_for_recurrence base "bi-annual" = some (month_shift_spec base 6) ∧
    advance_for_recurrence base "yearly" = some (year_shift_spec base) ∧
    advance_for_recurrence ⟨2024, 1, 31⟩ "monthly" = some ⟨2024, 2, 29⟩ ∧
    advance_for_recurrence ⟨2023, 1, 31⟩ "monthly" = some ⟨2023, 2, 28⟩ := by
  obtain ⟨hy, hm1, hm2, hd1, hd2⟩ := hv
  refine ⟨?_, ?_, ?_, ?_, by decide, by decide⟩
  · show some (addMonths base 1) = _
    rw [addMonths_eq_spec base hm1 hm2 1 (by omega) (by omega)]
  · show some (addMonths base 3) = _
    rw [addMonths_eq_spec base hm1 hm2 3 (by omega) (by omega)]
  · show some (addMonths base 6) = _
    rw [addMonths_eq_spec base hm1 hm2 6 (by omega) (by omega)]
  · show some (addYears base 1) = _
    unfold addYears year_shift_spec
    simp only [Option.some.injEq, Date.mk.injEq, true_and]
    omega

/-- Witness for C3 at a concrete valid base date. -/
theorem keyword_cadence_advance_witness :
    Date.Valid ⟨2024, 5, 31⟩ ∧
    advance_for_recurrence ⟨2024, 5, 31⟩ "monthly" =
      some (month_shift_spec ⟨2024, 5, 31⟩ 1) :=
  ⟨by decide, (keyword_cadence_advance ⟨2024, 5, 31⟩ (by decide)).1⟩

/-! ## C4: what `_next_due` actually returns -/

/-- C4 (counterexample): for a task whose recurrence is non-empty but does
not normalize ("sometimes") and whose `due` is set in the future,
`_next_due` returns the due date, not `today` as the claim states. -/
theorem next_due_unnormalizable_counterexample :
    normalize_recurrence_value (some "sometimes") = none ∧
    next_due { recurrence := .str "sometimes", due := some (.s "2024-06-01") }
        ⟨2024, 1, 1⟩ = ⟨2024, 6, 1⟩ ∧
    (⟨2024, 6, 1⟩ : Date) ≠ ⟨2024, 1, 1⟩ := by
  refine ⟨rfl, rfl, by decide⟩

/-- Helper: the full case analysis of `_next_due` as one equation. -/
theorem next_due_eq (task : Task) (today : Date) :
    next_due task today =
      (if (pyLower (recStr task.recurrence)).isEmpty then today
       else
         match parse_date task.due with
         | some dd =>
           if (parse_date task.last_completed).all (fun lc => Date.blt lc dd)
           then dd
           else (advance_for_recurrence
                   ((parse_date task.last_completed).getD today)
                   (pyLower (recStr task.recurrence))).getD today
         | none => (advance_for_recurrence
                      ((parse_date task.last_completed).getD today)
                      (pyLower (recStr task.recurrence))).getD today) := by
  unfold next_due
  dsimp only
  split_ifs
  · rfl
  · cases parse_date task.due <;> cases parse_date task.last_completed <;>
      simp [Option.all]

/-- C4 (amended): `_next_due` returns `today` exactly when the retrieved
recurrence string is empty (key absent, or an empty string); for any
non-empty recurrence string — normalizable or not — it returns the parsed
`due` when `due` parses and (`last_completed` does not parse or `due` is
strictly later), and otherwise the recurrence-advanced date from
(`last_completed` or `today`), falling back to `today` when advancement
fails (in particular whenever the recurrence does not normalize). -/
theorem next_due_resolution (task : Task) (today : Date) :
    next_due task today =
      (if (pyLower (recStr task.recurrence)).isEmpty then today
       else
         match parse_date task.due with
         | some dd =>
           if (parse_date task.last_completed).all (fun lc => Date.blt lc dd)
           then dd
           else (advance_for_recurrence
                   ((parse_date task.last_completed).getD today)
                   (pyLower (recStr task.recurrence))).getD today
         | none => (advance_for_recurrence
                      ((parse_date task.last_completed).getD today)
                      (pyLower (recStr task.recurrence))).getD today) :=
  next_due_eq task today

/-! ## C5: completion stamps `last_completed` and sets the right status -/

/-- C5: after `complete_task(task, today)`, `last_completed` is the ISO
string of the completion date; a recurring task (truthy `recurrence` key)
gets `status = "active"`, never `"complete"`; a non-recurring task gets
`status = "complete"`. -/
theorem complete_task_status (task : Task) (today : Date)
    (log : List CompletionEntry) :
    ((complete_task task today log).1.last_completed =
        some (.s today.isoformat)) ∧
    (recTruthy task.recurrence = true →
      (complete_task task today log).1.status = some "active" ∧
      (complete_task task today log).1.status ≠ some "complete") ∧
    (recTruthy task.recurrence = false →
      (complete_task task today log).1.status = some "complete") := by
  unfold complete_task
  dsimp only
  cases h : recTruthy task.recurrence <;> simp [h]

/-- Witness for C5, with both a recurring and (via a second application in
the same statement) checkable hypotheses at a concrete input. -/
theorem complete_task_status_witness :
    recTruthy (RecVal.str "daily") = true ∧
    ((complete_task { recurrence := .str "daily" } ⟨2024, 1, 2⟩ []).1.status =
        some "active" ∧
      (complete_task { recurrence := .str "daily" } ⟨2024, 1, 2⟩ []).1.status ≠
        some "complete") :=
  ⟨by decide,
   (complete_task_status { recurrence := .str "daily" } ⟨2024, 1, 2⟩ []).2.1
     (by decide)⟩

/-! ## C7: the completion log is deduplicated by `(task_id, completed_at)` -/

/-- C7: re-recording the same completion is a no-op (the second call leaves
the log exactly as the first left it), and recording preserves the
at-most-one-entry-per-`(task_id, completed_at)`-key invariant. -/
theorem record_completion_idempotent (task : Task) (completed_at : Option DVal)
    (log : List CompletionEntry) :
    record_task_completion task completed_at
        (record_task_completion task completed_at log) =
      record_task_completion task completed_at log ∧
    ((log.map fun e => (e.task_id, e.completed_at)).Nodup →
      ((record_task_completion task completed_at log).map
          fun e => (e.task_id, e.completed_at)).Nodup) := by
  unfold record_task_completion
  cases hts : normalize_completion_timestamp (pyOrD completed_at task.last_completed) with
  | none => exact ⟨rfl, fun h => h⟩
  | some ts =>
    dsimp only
    cases hany : log.any (fun item =>
        item.task_id == task.id && item.completed_at == ts) with
    | true => simp [hany]
    | false =>
      simp only [hany, if_neg, Bool.false_eq_true, not_false_iff, if_false]
      constructor
      · rw [if_pos]
        simp
      · intro hnd
        simp only [List.map_append, List.map_cons, List.map_nil]
        rw [List.nodup_append]
        refine ⟨hnd, List.nodup_singleton _, ?_⟩
        intro p hp hq
        simp only [List.mem_singleton] at hq
        subst hq
        simp only [List.mem_map] at hp
        obtain ⟨e, he, hkey⟩ := hp
        have := List.any_eq_false.mp hany e he
        simp only [Bool.and_eq_true, beq_iff_eq] at this
        simp only [Prod.mk.injEq] at hkey
        tauto

/-! ## C8: effective energy level -/

/-- C8 (counterexample): with a negative numeric energy the function does
not return the minimum of the two signals — the combined value is clamped
at 0 (`max(0, ...)`), so `effective_energy_level(-5, "sad")` is `0`, not
`min(-5, 1) = -5`. -/
theorem effective_energy_counterexample :
    MOOD_ENERGY_TARGETS "sad" = some 1 ∧
    min (-5 : Int) 1 = -5 ∧
    effective_energy_level (some (-5)) (some "sad") 3 = 0 ∧
    (0 : Int) ≠ -5 := by
  refine ⟨rfl, by decide, rfl, by decide⟩

/-- C8 (amended): the function returns the minimum of the numeric energy
and the mood-derived target when both are available and the single
available value when only one is — in both cases clamped below at 0 — and
the default, unclamped, when neither is available; in particular
`effective_energy_level(4, "sad") = 1`,
`effective_energy_level(None, None) = 3`, and
`effective_energy_level(None, None, default=5) = 5`. -/
theorem effective_energy_resolution (e d : Int) (mood : Option String) :
    (∀ t, MOOD_ENERGY_TARGETS (pyLower (pyStrip (mood.getD ""))) = some t →
      effective_energy_level (some e) mood d = max 0 (min e t)) ∧
    (MOOD_ENERGY_TARGETS (pyLower (pyStrip (mood.getD ""))) = none →
      effective_energy_level (some e) mood d = max 0 e) ∧
    (∀ t, MOOD_ENERGY_TARGETS (pyLower (pyStrip (mood.getD ""))) = some t →
      effective_energy_level none mood d = max 0 t) ∧
    (MOOD_ENERGY_TARGETS (pyLower (pyStrip (mood.getD ""))) = none →
      effective_energy_level none mood d = d) ∧
    effective_energy_level (some 4) (some "sad") 3 = 1 ∧
    effective_energy_level none none 3 = 3 ∧
    effective_energy_level none none 5 = 5 := by
  refine ⟨?_, ?_, ?_, ?_, rfl, rfl, rfl⟩
  · intro t ht
    unfold effective_energy_level
    dsimp only
    rw [ht]
    rfl
  · intro ht
    unfold effective_energy_level
    dsimp only
    rw [ht]
    rfl
  · intro t ht
    unfold effective_energy_level
    dsimp only
    rw [ht]
    rfl
  · intro ht
    unfold effective_energy_level
    dsimp only
    rw [ht]
    rfl

/-- Witness for C8 at concrete inputs. -/
theorem effective_energy_resolution_witness :
    MOOD_ENERGY_TARGETS (pyLower (pyStrip ((some "sad").getD ""))) = some 1 ∧
    effective_energy_level (some 4) (some "sad") 3 = max 0 (min 4 1) :=
  ⟨rfl, (effective_energy_resolution 4 3 (some "sad")).1 1 rfl⟩

/-! ## C1: malformed date strings on the read path -/

/-- C1 (counterexample): `apply_recurrence` on a list with a non-recurring
task whose `due` is a malformed ISO string does not terminate normally —
the unguarded `date.fromisoformat` call raises `ValueError`. -/
theorem apply_recurrence_malformed_counterexample :
    date_fromisoformat "not-a-date" = none ∧
    apply_recurrence [{ due := some (.s "not-a-date") }] ⟨2024, 1, 1⟩ =
      .error "ValueError: invalid isoformat string" := by
  exact ⟨rfl, rfl⟩

/-- The annotation `apply_recurrence` writes for a recurring task whose
resolved next-due date is `nd`. -/
def annotated (task : Task) (nd today : Date) : Task :=
  { task with next_due := some (.s nd.isoformat)
              due_today := some (nd.ble today) }

theorem pyLower_isEmpty_false (c : Char) (cs : List Char) :
    (pyLower ⟨c :: cs⟩).isEmpty = false := by
  rw [Bool.eq_false_iff]
  intro h
  rw [String.isEmpty_iff] at h
  exact (List.cons_ne_nil _ _) (congrArg String.data h)

theorem apply_recurrence_step_recurring (task : Task) (today : Date)
    (h : recTruthy task.recurrence = true) :
    apply_recurrence_step today task =
      .ok (annotated task (next_due task today) today) := by
  unfold apply_recurrence_step
  rw [if_pos h]
  rfl

/-- C1 (amended): the due-date resolver `_next_due` treats malformed ISO
strings in `due`/`last_completed` as absent and (being a total function in
this model) never raises; `apply_recurrence` terminates normally on every
list of *recurring* tasks, and annotates a recurring task with malformed
`due` with the fallback date — the recurrence-derived date or `today`.
For *non-recurring* tasks a malformed `due` raises `ValueError`
(counterexample). -/
theorem apply_recurrence_recurring_total (tasks : List Task) (today : Date)
    (task : Task)
    (hall : ∀ t ∈ tasks, recTruthy t.recurrence = true) :
    (∃ out, apply_recurrence tasks today = .ok out) ∧
    (recTruthy task.recurrence = true → parse_date task.due = none →
      apply_recurrence_step today task =
        .ok (annotated task
          ((advance_for_recurrence ((parse_date task.last_completed).getD today)
            (pyLower (recStr task.recurrence))).getD today) today)) := by
  constructor
  · clear task
    induction tasks with
    | nil => exact ⟨[], rfl⟩
    | cons t rest ih =>
      have ht : recTruthy t.recurrence = true := hall t (List.mem_cons_self t rest)
      obtain ⟨out, hout⟩ := ih (fun x hx => hall x (List.mem_cons_of_mem t hx))
      refine ⟨annotated t (next_due t today) today :: out, ?_⟩
      unfold apply_recurrence
      rw [apply_recurrence_step_recurring t today ht, hout]
  · intro hrec hdue
    have hne : (pyLower (recStr task.recurrence)).isEmpty = false := by
      cases h : task.recurrence with
      | absent => rw [h] at hrec; exact absurd hrec (by decide)
      | null => rw [h] at hrec; exact absurd hrec (by decide)
      | str s =>
        cases s with
        | mk data =>
          cases data with
          | nil =>
            rw [h] at hrec
            exact absurd hrec (by decide)
          | cons c cs => exact pyLower_isEmpty_false c cs
    rw [apply_recurrence_step_recurring task today hrec]
    have : next_due task today =
        (advance_for_recurrence ((parse_date task.last_completed).getD today)
          (pyLower (recStr task.recurrence))).getD today := by
      rw [next_due_eq task today, if_neg (by simp [hne]), hdue]
    rw [this]

/-! ## Order facts about the selector's sort key -/

theorem keyLt_irrefl (a : ScoreKey) : keyLt a a = false := by
  obtain ⟨⟨dy, dm, dd⟩, t, e, x, c, w⟩ := a
  simp [keyLt, Date.blt]

theorem keyLt_trans {a b c : ScoreKey} (h1 : keyLt a b = true)
    (h2 : keyLt b c = true) : keyLt a c = true := by
  obtain ⟨⟨y1, m1, d1⟩, t1, e1, x1, c1, w1⟩ := a
  obtain ⟨⟨y2, m2, d2⟩, t2, e2, x2, c2, w2⟩ := b
  obtain ⟨⟨y3, m3, d3⟩, t3, e3, x3, c3, w3⟩ := c
  simp [keyLt, Date.blt, Date.mk.injEq, ScoreKey.mk.injEq] at h1 h2 ⊢
  omega

/-- Lexicographic totality: when `a` is not strictly below `b`, either `b`
is strictly below `a` or they are equal. -/
theorem keyLt_total {a b : ScoreKey} (h : keyLt a b = false) :
    keyLt b a = true ∨ b = a := by
  obtain ⟨⟨y1, m1, d1⟩, t1, e1, x1, c1, w1⟩ := a
  obtain ⟨⟨y2, m2, d2⟩, t2, e2, x2, c2, w2⟩ := b
  simp [keyLt, Date.blt, Date.mk.injEq, ScoreKey.mk.injEq] at h ⊢
  omega

theorem minByKey_mem (first : Task × Reasoning × ScoreKey)
    (rest : List (Task × Reasoning × ScoreKey)) :
    minByKey first rest = first ∨ minByKey first rest ∈ rest := by
  induction rest generalizing first with
  | nil => left; rfl
  | cons y tl ih =>
    unfold minByKey at ih ⊢
    simp only [List.foldl_cons]
    rcases ih (if keyLt y.2.2 first.2.2 then y else first) with h | h
    · rw [h]
      split_ifs with hy
      · right; exact List.mem_cons_self y tl
      · left; rfl
    · right; exact List.mem_cons_of_mem y h

/-- Python's `min` returns an element no other element's key is strictly
below. -/
theorem minByKey_min (first : Task × Reasoning × ScoreKey)
    (rest : List (Task × Reasoning × ScoreKey)) :
    ∀ x, (x = first ∨ x ∈ rest) →
      keyLt x.2.2 (minByKey first rest).2.2 = false := by
  induction rest generalizing first with
  | nil =>
    intro x hx
    rcases hx with rfl | h
    · exact keyLt_irrefl _
    · exact absurd h (List.not_mem_nil x)
  | cons y tl ih =>
    intro x hx
    unfold minByKey
    simp only [List.foldl_cons]
    by_cases hy : keyLt y.2.2 first.2.2 = true
    · rw [if_pos hy]
      change keyLt x.2.2 (minByKey y tl).2.2 = false
      have hres := ih y
      have haccle : keyLt y.2.2 (minByKey y tl).2.2 = false := hres y (Or.inl rfl)
      rcases hx with rfl | hx
      · cases hmin : keyLt x.2.2 (minByKey y tl).2.2 with
        | false => rfl
        | true =>
          exfalso
          rcases keyLt_total haccle with hlt | heq
          · have h1 := keyLt_trans hy hmin
            have h2 := keyLt_trans h1 hlt
            rw [keyLt_irrefl] at h2
            exact Bool.false_ne_true h2
          · rw [heq] at hmin
            have h1 := keyLt_trans hy hmin
            rw [keyLt_irrefl] at h1
            exact Bool.false_ne_true h1
      · rcases List.mem_cons.mp hx with rfl | hxtl
        · exact hres x (Or.inl rfl)
        · exact hres x (Or.inr hxtl)
    · rw [if_neg hy]
      change keyLt x.2.2 (minByKey first tl).2.2 = false
      have hres := ih first
      have haccle : keyLt first.2.2 (minByKey first tl).2.2 = false :=
        hres first (Or.inl rfl)
      rcases hx with rfl | hx
      · exact hres x (Or.inl rfl)
      · rcases List.mem_cons.mp hx with rfl | hxtl
        · cases hmin : keyLt x.2.2 (minByKey first tl).2.2 with
          | false => rfl
          | true =>
            exfalso
            rcases keyLt_total haccle with hlt | heq
            · have h1 := keyLt_trans hmin hlt
              rw [h1] at hy
              exact hy rfl
            · rw [heq] at hmin
              rw [hmin] at hy
              exact hy rfl
        · exact hres x (Or.inr hxtl)

/-- The selection produced for a non-empty candidate list, as an element of
the scored list. -/
theorem select_next_task_best (t : Task) (rest : List Task)
    (mood : Option String) (el : Option Int) :
    ∃ x, (x = t ∨ x ∈ rest) ∧
      select_next_task (t :: rest) mood el =
        (some x, some (score_task (effective_energy_level el mood 3)
          ((MOOD_EXECUTIVE_TOLERANCE (pyLower (mood.getD ""))).getD
            DEFAULT_EXECUTIVE_TOLERANCE) x).2.1) ∧
      (∀ z ∈ t :: rest,
        keyLt (score_task (effective_energy_level el mood 3)
            ((MOOD_EXECUTIVE_TOLERANCE (pyLower (mood.getD ""))).getD
              DEFAULT_EXECUTIVE_TOLERANCE) z).2.2
          (score_task (effective_energy_level el mood 3)
            ((MOOD_EXECUTIVE_TOLERANCE (pyLower (mood.getD ""))).getD
              DEFAULT_EXECUTIVE_TOLERANCE) x).2.2 = false) := by
  classical
  set te := effective_energy_level el mood 3 with hte
  set tol := (MOOD_EXECUTIVE_TOLERANCE (pyLower (mood.getD ""))).getD
    DEFAULT_EXECUTIVE_TOLERANCE with htol
  have hmem := minByKey_mem (score_task te tol t) (rest.map (score_task te tol))
  have hmin := minByKey_min (score_task te tol t) (rest.map (score_task te tol))
  set best := minByKey (score_task te tol t) (rest.map (score_task te tol))
    with hbest
  have hx : ∃ x, (x = t ∨ x ∈ rest) ∧ best = score_task te tol x := by
    rcases hmem with h | h
    · exact ⟨t, Or.inl rfl, h⟩
    · obtain ⟨x, hx, hxeq⟩ := List.mem_map.mp h
      exact ⟨x, Or.inr hx, hxeq.symm⟩
  obtain ⟨x, hxmem, hxeq⟩ := hx
  refine ⟨x, hxmem, ?_, ?_⟩
  · show (some best.1, some best.2.1) = _
    rw [hxeq]
    rfl
  · intro z hz
    have := hmin (score_task te tol z) ?_
    · rw [hxeq] at this
      exact this
    · rcases List.mem_cons.mp hz with rfl | hz
      · exact Or.inl rfl
      · exact Or.inr (List.mem_map_of_mem _ hz)

/-- C10: the selector is total — `(None, None)` exactly on an empty list,
and on any non-empty list (malformed fields included: every field of the
`Task` model, such as a non-numeric `energy_cost` string or an unknown
`executive_trigger`, is quantified here) it returns a member of the list
together with a non-null reasoning record.  The model is a total function,
matching the source's catch-all coercions that never raise. -/
theorem select_next_task_total (tasks : List Task) (mood : Option String)
    (el : Option Int) :
    (select_next_task tasks mood el = (none, none) ↔ tasks = []) ∧
    (tasks ≠ [] → ∃ t r, select_next_task tasks mood el = (some t, some r) ∧
      t ∈ tasks) := by
  cases tasks with
  | nil => exact ⟨by constructor <;> intro <;> rfl, fun h => absurd rfl h⟩
  | cons t rest =>
    obtain ⟨x, hxmem, hsel, -⟩ := select_next_task_best t rest mood el
    constructor
    · rw [hsel]
      constructor
      · intro h
        exact absurd (congrArg Prod.fst h) (by simp)
      · intro h
        exact absurd h (by simp)
    · intro _
      refine ⟨x, _, hsel, ?_⟩
      rcases hxmem with rfl | h
      · exact List.mem_cons_self x rest
      · exact List.mem_cons_of_mem t h

/-- A deliberately malformed task record: non-numeric `energy_cost`,
unknown `executive_trigger`. -/
def junkTask : Task :=
  { energy_cost := some (.s "junk"), executive_trigger := some "weird" }

/-- Witness for C10 on a concrete non-empty list with a malformed
`energy_cost` and an unknown `executive_trigger`. -/
theorem select_next_task_total_witness :
    ([junkTask] ≠ []) ∧
    (select_next_task [junkTask] (some "sad") (some 2) = (none, none) ↔
      ([junkTask] : List Task) = []) :=
  ⟨by decide, (select_next_task_total [junkTask] (some "sad") (some 2)).1⟩

/-! ## C9: due date is the primary sort key -/

/-- C9 (counterexample): an undated task can be selected over a task with a
*parseable* due date and an equal score tuple — when that due date is
exactly `9999-12-31`, which parses to the very sentinel (`date.max`) used
for missing dates.  Task A (no due) precedes task B (due `9999-12-31`) in
the list, their score tuples are identical, and A is selected. -/
theorem selector_sentinel_counterexample :
    date_fromisoformat "9999-12-31" = some dateMax ∧
    (score_task 3 1 { title := some "A" }).2.2 =
      (score_task 3 1 { title := some "B", due := some (.s "9999-12-31") }).2.2 ∧
    effective_energy_level none none 3 = 3 ∧
    (MOOD_EXECUTIVE_TOLERANCE (pyLower ((none : Option String).getD ""))).getD
      DEFAULT_EXECUTIVE_TOLERANCE = 1 ∧
    (select_next_task
      [{ title := some "A" },
       { title := some "B", due := some (.s "9999-12-31") }] none none).1 =
      some { title := some "A" } ∧
    ({ title := some "A" } : Task) ≠
      { title := some "B", due := some (.s "9999-12-31") } := by
  refine ⟨rfl, rfl, rfl, rfl, rfl, by decide⟩

/-- C9 (amended): (a) with two candidates of equal energy and executive
penalties and different parsed due values, the earlier-due task is selected
whichever order the list presents them in; (b) a task whose due value is
the missing-date sentinel (`date.max`, i.e. no parseable due) is never
selected when the list contains a task whose parsed due value is strictly
earlier than the sentinel — the original claim fails only when the
"parseable" due is exactly `9999-12-31`, which *is* the sentinel. -/
theorem selector_due_priority (mood : Option String) (el : Option Int)
    (t1 t2 : Task) (tasks : List Task) (a b : Task)
    (hp1 : (score_task (effective_energy_level el mood 3)
        ((MOOD_EXECUTIVE_TOLERANCE (pyLower (mood.getD ""))).getD
          DEFAULT_EXECUTIVE_TOLERANCE) t1).2.2.energy_penalty =
      (score_task (effective_energy_level el mood 3)
        ((MOOD_EXECUTIVE_TOLERANCE (pyLower (mood.getD ""))).getD
          DEFAULT_EXECUTIVE_TOLERANCE) t2).2.2.energy_penalty)
    (hp2 : (score_task (effective_energy_level el mood 3)
        ((MOOD_EXECUTIVE_TOLERANCE (pyLower (mood.getD ""))).getD
          DEFAULT_EXECUTIVE_TOLERANCE) t1).2.2.executive_penalty =
      (score_task (effective_energy_level el mood 3)
        ((MOOD_EXECUTIVE_TOLERANCE (pyLower (mood.getD ""))).getD
          DEFAULT_EXECUTIVE_TOLERANCE) t2).2.2.executive_penalty)
    (hlt : Date.blt (due_date_value t1) (due_date_value t2) = true)
    (hbmem : b ∈ tasks) (ha : due_date_value a = dateMax)
    (hb : Date.blt (due_date_value b) dateMax = true) :
    (select_next_task [t1, t2] mood el).1 = some t1 ∧
    (select_next_task [t2, t1] mood el).1 = some t1 ∧
    (select_next_task tasks mood el).1 ≠ some a := by
  classical
  set te := effective_energy_level el mood 3 with hte
  set tol := (MOOD_EXECUTIVE_TOLERANCE (pyLower (mood.getD ""))).getD
    DEFAULT_EXECUTIVE_TOLERANCE with htol
  have hdue1 : (score_task te tol t1).2.2.due = due_date_value t1 := rfl
  have hdue2 : (score_task te tol t2).2.2.due = due_date_value t2 := rfl
  have hk12 : keyLt (score_task te tol t1).2.2 (score_task te tol t2).2.2 = true := by
    unfold keyLt
    rw [hdue1, hdue2, hlt]
    rfl
  have hk21 : keyLt (score_task te tol t2).2.2 (score_task te tol t1).2.2 = false := by
    unfold keyLt
    rw [hdue1, hdue2, Date.blt_asymm hlt]
    have hne : ((due_date_value t2) == (due_date_value t1)) = false := by
      rw [beq_eq_false_iff_ne]
      intro h
      rw [h] at hlt
      have := Date.blt_asymm hlt
      rw [this] at hlt
      exact Bool.false_ne_true hlt
    rw [hne]
    rfl
  refine ⟨?_, ?_, ?_⟩
  · show some (minByKey (score_task te tol t1) [score_task te tol t2]).1 = some t1
    unfold minByKey
    simp only [List.foldl_cons, List.foldl_nil]
    rw [hk21]
    simp only [Bool.false_eq_true, if_false]
    rfl
  · show some (minByKey (score_task te tol t2) [score_task te tol t1]).1 = some t1
    unfold minByKey
    simp only [List.foldl_cons, List.foldl_nil]
    rw [hk12]
    simp only [if_true]
    rfl
  · cases tasks with
    | nil => exact absurd hbmem (List.not_mem_nil b)
    | cons t rest =>
      obtain ⟨x, hxmem, hsel, hminall⟩ := select_next_task_best t rest mood el
      rw [hsel]
      intro hcontra
      have hxa : x = a := by simpa using hcontra
      subst hxa
      have hxdue : (score_task te tol x).2.2.due = dateMax := by
        rw [show (score_task te tol x).2.2.due = due_date_value x from rfl, ha]
      have hbk : keyLt (score_task te tol b).2.2 (score_task te tol x).2.2 = true := by
        unfold keyLt
        rw [show (score_task te tol b).2.2.due = due_date_value b from rfl,
          hxdue, hb]
        rfl
      have := hminall b hbmem
      rw [← hte, ← htol] at this
      rw [this] at hbk
      exact Bool.false_ne_true hbk

/-- Witness for C9 at concrete inputs: two dated tasks with equal penalties
and an undated task versus a dated member. -/
theorem selector_due_priority_witness :
    (score_task (effective_energy_level none none 3)
        ((MOOD_EXECUTIVE_TOLERANCE (pyLower ((none : Option String).getD ""))).getD
          DEFAULT_EXECUTIVE_TOLERANCE)
        { due := some (.s "2024-01-01") }).2.2.energy_penalty =
      (score_task (effective_energy_level none none 3)
        ((MOOD_EXECUTIVE_TOLERANCE (pyLower ((none : Option String).getD ""))).getD
          DEFAULT_EXECUTIVE_TOLERANCE)
        { due := some (.s "2024-02-01") }).2.2.energy_penalty ∧
    Date.blt (due_date_value { due := some (.s "2024-01-01") })
      (due_date_value { due := some (.s "2024-02-01") }) = true ∧
    (select_next_task [{ due := some (.s "2024-01-01") },
        { due := some (.s "2024-02-01") }] none none).1 =
      some { due := some (.s "2024-01-01") } := by
  refine ⟨rfl, by decide, ?_⟩
  exact (selector_due_priority none none
    { due := some (.s "2024-01-01") } { due := some (.s "2024-02-01") }
    [{ due := some (.s "2024-02-01") }] { title := some "undated" }
    { due := some (.s "2024-02-01") }
    rfl rfl (by decide) (List.mem_cons_self _ _) (by decide) (by decide)).1

/-- Witness for C1 on a concrete recurring task with a malformed due. -/
theorem apply_recurrence_recurring_total_witness :
    (∀ t ∈ [({ recurrence := .str "weekly", due := some (.s "not-a-date") } :
        Task)], recTruthy t.recurrence = true) ∧
    (∃ out, apply_recurrence
      [({ recurrence := .str "weekly", due := some (.s "not-a-date") } : Task)]
      ⟨2024, 1, 1⟩ = .ok out) :=
  ⟨by decide,
   (apply_recurrence_recurring_total
     [{ recurrence := .str "weekly", due := some (.s "not-a-date") }]
     ⟨2024, 1, 1⟩
     { recurrence := .str "weekly", due := some (.s "not-a-date") }
     (by decide)).1⟩

/-- Witness for C7's invariant-preservation conjunct at a concrete log. -/
theorem record_completion_idempotent_witness :
    (([] : List CompletionEntry).map
      (fun e => (e.task_id, e.completed_at))).Nodup ∧
    ((record_task_completion { id := some 4 } (some (.d ⟨2024, 1, 1⟩)) []).map
      (fun e => (e.task_id, e.completed_at))).Nodup :=
  ⟨List.nodup_nil,
   (record_completion_idempotent { id := some 4 } (some (.d ⟨2024, 1, 1⟩)) []).2
     List.nodup_nil⟩

/-! ## C2: "nth weekday" recurrences -/

theorem Date.blt_irrefl (a : Date) : a.blt a = false := by
  cases a; simp [Date.blt]

theorem Date.ble_iff (a b : Date) :
    a.ble b = true ↔ a.blt b = true ∨ a = b := by
  simp [Date.ble]

/-- `r` is the `n`-th occurrence of weekday `w` within its own calendar
month: it is a valid date, its weekday is `w`, and its day number lies in
the `n`-th week of the month. -/
def is_nth_weekday_occurrence (r : Date) (n w : Nat) : Prop :=
  r.Valid ∧ r.weekday = w ∧ 7 * (n - 1) < r.day ∧ r.day ≤ 7 * n

/-- For a positive ordinal the dateutil jump from the first of the month
lands on day `1 + (o-1)*7 + (7 - weekday(1st) + w) % 7` of the same
month. -/
theorem nth_weekday_pos_eq (y m : Nat) (o : Int) (w : Nat)
    (hm1 : 1 ≤ m) (hm2 : m ≤ 12) (ho1 : 1 ≤ o) (ho4 : o ≤ 4) (hw : w < 7) :
    nth_weekday_of_month y m o w =
      ⟨y, m, 1 + ((o.toNat - 1) * 7 +
        (7 - (Date.mk y m 1).weekday + w) % 7)⟩ := by
  unfold nth_weekday_of_month
  dsimp only
  rw [if_pos (by omega : o > 0)]
  apply addDays_within_month ⟨y, m, 1⟩ _ (by norm_num)
  dsimp only
  have h7 : (7 - Date.weekday ⟨y, m, 1⟩ + w) % 7 < 7 :=
    Nat.mod_lt _ (by norm_num)
  have h28 := daysInMonth_ge_28 y m hm1 hm2
  have hto : o.toNat ≤ 4 := by omega
  omega

/-- For a positive ordinal, `_nth_weekday_of_month` really is the `o`-th
occurrence of weekday `w` in month `(y, m)`. -/
theorem nth_weekday_pos_spec (y m : Nat) (o : Int) (w : Nat)
    (hy : 1 ≤ y) (hm1 : 1 ≤ m) (hm2 : m ≤ 12)
    (ho1 : 1 ≤ o) (ho4 : o ≤ 4) (hw : w < 7) :
    is_nth_weekday_occurrence (nth_weekday_of_month y m o w) o.toNat w ∧
    (nth_weekday_of_month y m o w).year = y ∧
    (nth_weekday_of_month y m o w).month = m := by
  rw [nth_weekday_pos_eq y m o w hm1 hm2 ho1 ho4 hw]
  have h28 := daysInMonth_ge_28 y m hm1 hm2
  have hto1 : 1 ≤ o.toNat := by omega
  have hto4 : o.toNat ≤ 4 := by omega
  unfold is_nth_weekday_occurrence Date.Valid Date.weekday Date.toOrdinal
  dsimp only
  have h7 : (7 - (daysBeforeYear y + daysBeforeMonth y m + 1 + 6) % 7 + w) % 7 < 7 :=
    Nat.mod_lt _ (by norm_num)
  refine ⟨⟨⟨hy, hm1, hm2, by omega, by omega⟩, by omega, by omega, by omega⟩,
    by trivial, by trivial⟩

/-- The conclusion of claim C2 for one recurrence string `s` standing for
the ordinal-`o`, weekday-`w` rule: the advancer dispatches to
`_next_monthly_weekday`, the result is strictly after the base date, it is
the `o.toNat`-th occurrence of the weekday within its calendar month, and
it is the occurrence in the base month when that is strictly after the
base, otherwise the occurrence in the following month. -/
def ordinal_advance_claim (base : Date) (s : String) (o : Int) (w : Nat) : Prop :=
  advance_for_recurrence base s = some (next_monthly_weekday base o w) ∧
  Date.blt base (next_monthly_weekday base o w) = true ∧
  is_nth_weekday_occurrence (next_monthly_weekday base o w) o.toNat w ∧
  (Date.blt base (nth_weekday_of_month base.year base.month o w) = true →
    next_monthly_weekday base o w =
      nth_weekday_of_month base.year base.month o w) ∧
  (Date.blt base (nth_weekday_of_month base.year base.month o w) = false →
    next_monthly_weekday base o w =
      nth_weekday_of_month (addMonths base 1).year (addMonths base 1).month o w)

theorem next_monthly_weekday_pos_spec (base : Date) (hb : base.Valid)
    (o : Int) (w : Nat) (ho1 : 1 ≤ o) (ho4 : o ≤ 4) (hw : w < 7) :
    Date.blt base (next_monthly_weekday base o w) = true ∧
    is_nth_weekday_occurrence (next_monthly_weekday base o w) o.toNat w ∧
    (Date.blt base (nth_weekday_of_month base.year base.month o w) = true →
      next_monthly_weekday base o w =
        nth_weekday_of_month base.year base.month o w) ∧
    (Date.blt base (nth_weekday_of_month base.year base.month o w) = false →
      next_monthly_weekday base o w =
        nth_weekday_of_month (addMonths base 1).year (addMonths base 1).month o w) := by
  obtain ⟨hy, hm1, hm2, hd1, hd2⟩ := hb
  unfold next_monthly_weekday
  dsimp only
  cases hble : (nth_weekday_of_month base.year base.month o w).ble base with
  | false =>
    have hblt : Date.blt base (nth_weekday_of_month base.year base.month o w) =
        true := (Date.not_ble_iff_blt _ _).mp hble
    simp only [hble, Bool.false_eq_true, if_false]
    refine ⟨hblt,
      (nth_weekday_pos_spec base.year base.month o w hy hm1 hm2 ho1 ho4 hw).1,
      fun _ => by trivial, fun h => ?_⟩
    rw [h] at hblt
    exact absurd hblt Bool.false_ne_true
  | true =>
    have hnotlt : Date.blt base (nth_weekday_of_month base.year base.month o w) =
        false := by
      rcases (Date.ble_iff _ _).mp hble with h | h
      · exact Date.blt_asymm h
      · rw [h]
        exact Date.blt_irrefl base
    simp only [hble, if_true]
    have hnm : ((addMonths base 1).month = base.month + 1 ∧
          (addMonths base 1).year = base.year ∧ base.month + 1 ≤ 12) ∨
        ((addMonths base 1).month = 1 ∧
          (addMonths base 1).year = base.year + 1 ∧ base.month = 12) := by
      unfold addMonths
      dsimp only
      split_ifs with h
      · right
        refine ⟨?_, ?_, by omega⟩
        · show base.month + 1 - 12 = 1
          omega
        · show base.year + 1 = base.year + 1
          rfl
      · left
        refine ⟨rfl, rfl, by omega⟩
    have hnmy : 1 ≤ (addMonths base 1).year := by rcases hnm with ⟨_, h, _⟩ | ⟨_, h, _⟩ <;> omega
    have hnmm1 : 1 ≤ (addMonths base 1).month := by rcases hnm with ⟨h, _, _⟩ | ⟨h, _, _⟩ <;> omega
    have hnmm2 : (addMonths base 1).month ≤ 12 := by rcases hnm with ⟨h, _, hh⟩ | ⟨h, _, _⟩ <;> omega
    obtain ⟨hocc, hry, hrm⟩ := nth_weekday_pos_spec (addMonths base 1).year
      (addMonths base 1).month o w hnmy hnmm1 hnmm2 ho1 ho4 hw
    refine ⟨?_, hocc, fun h => ?_, fun _ => by trivial⟩
    · rw [Date.blt_iff]
      rcases hnm with ⟨hm, hyr, hle⟩ | ⟨hm, hyr, h12⟩
      · right
        constructor
        · omega
        · left; omega
      · left; omega
    · rw [h] at hnotlt
      simp at hnotlt

/-- C2 (counterexample): for the normalized recurrence "last saturday" and
base date 2024-01-31, the advancer returns 2024-01-27, which is *not*
strictly after the base date (the claim requires the last-Saturday of
February, 2024-02-24, here).  dateutil's `SA(-1)` jump from the first of
the month walks *backwards*, so "last" does not mean "last occurrence
within the month strictly after base". -/
theorem ordinal_weekday_advance_counterexample :
    normalize_recurrence_value (some "last saturday") = some "last saturday" ∧
    advance_for_recurrence ⟨2024, 1, 31⟩ "last saturday" =
      some ⟨2024, 1, 27⟩ ∧
    Date.blt ⟨2024, 1, 31⟩ ⟨2024, 1, 27⟩ = false := by
  refine ⟨rfl, rfl, by decide⟩

/-- C2 (amended): the claim as stated, restricted to the positive ordinals
first/second/third/fourth (the counterexample shows it is false for
"last": dateutil computes the last occurrence of the weekday on or before
the month's *first* day, which can lie on or before the base date). -/
theorem ordinal_weekday_advance (base : Date) (hb : base.Valid)
    (ow ww : String) (o : Int) (w : Nat)
    (ho : ORDINALS ow = some o) (hpos : 0 < o)
    (hw : WEEKDAY_MAP ww = some w) :
    ordinal_advance_claim base (ow ++ " " ++ ww) o w := by
  have how : (ow = "first" ∧ o = 1) ∨ (ow = "second" ∧ o = 2) ∨
      (ow = "third" ∧ o = 3) ∨ (ow = "fourth" ∧ o = 4) := by
    unfold ORDINALS at ho
    split_ifs at ho with e1 e2 e3 e4 e5
    · exact Or.inl ⟨e1, (Option.some.inj ho).symm⟩
    · exact Or.inr (Or.inl ⟨e2, (Option.some.inj ho).symm⟩)
    · exact Or.inr (Or.inr (Or.inl ⟨e3, (Option.some.inj ho).symm⟩))
    · exact Or.inr (Or.inr (Or.inr ⟨e4, (Option.some.inj ho).symm⟩))
    · have := Option.some.inj ho
      omega
  have hwd : (ww = "monday" ∧ w = 0) ∨ (ww = "tuesday" ∧ w = 1) ∨
      (ww = "wednesday" ∧ w = 2) ∨ (ww = "thursday" ∧ w = 3) ∨
      (ww = "friday" ∧ w = 4) ∨ (ww = "saturday" ∧ w = 5) ∨
      (ww = "sunday" ∧ w = 6) := by
    unfold WEEKDAY_MAP at hw
    split_ifs at hw with f1 f2 f3 f4 f5 f6 f7
    · exact Or.inl ⟨f1, (Option.some.inj hw).symm⟩
    · exact Or.inr (Or.inl ⟨f2, (Option.some.inj hw).symm⟩)
    · exact Or.inr (Or.inr (Or.inl ⟨f3, (Option.some.inj hw).symm⟩))
    · exact Or.inr (Or.inr (Or.inr (Or.inl ⟨f4, (Option.some.inj hw).symm⟩)))
    · exact Or.inr (Or.inr (Or.inr (Or.inr (Or.inl ⟨f5, (Option.some.inj hw).symm⟩))))
    · exact Or.inr (Or.inr (Or.inr (Or.inr (Or.inr (Or.inl ⟨f6, (Option.some.inj hw).symm⟩)))))
    · exact Or.inr (Or.inr (Or.inr (Or.inr (Or.inr (Or.inr ⟨f7, (Option.some.inj hw).symm⟩)))))
  rcases how with ⟨rfl, rfl⟩ | ⟨rfl, rfl⟩ | ⟨rfl, rfl⟩ | ⟨rfl, rfl⟩ <;>
    rcases hwd with ⟨rfl, rfl⟩ | ⟨rfl, rfl⟩ | ⟨rfl, rfl⟩ | ⟨rfl, rfl⟩ |
      ⟨rfl, rfl⟩ | ⟨rfl, rfl⟩ | ⟨rfl, rfl⟩ <;>
    exact ⟨rfl, next_monthly_weekday_pos_spec base hb _ _ (by norm_num)
      (by norm_num) (by norm_num)⟩

/-- Witness for C2 at a concrete base date and recurrence. -/
theorem ordinal_weekday_advance_witness :
    Date.Valid ⟨2024, 1, 15⟩ ∧ ORDINALS "first" = some 1 ∧ (0 : Int) < 1 ∧
    WEEKDAY_MAP "saturday" = some 5 ∧
    ordinal_advance_claim ⟨2024, 1, 15⟩ ("first" ++ " " ++ "saturday") 1 5 :=
  ⟨by decide, rfl, by decide, rfl,
   ordinal_weekday_advance ⟨2024, 1, 15⟩ (by decide) "first" "saturday" 1 5
     rfl (by decide) rfl⟩

/-! ## C6: completion and due-date advancement -/

theorem digitChar_isDigit (k : Nat) (h : k ≤ 9) :
    (digitChar k).isDigit = true := by
  interval_cases k <;> decide

theorem digitVal_digitChar (k : Nat) (h : k ≤ 9) :
    digitVal (digitChar k) = k := by
  interval_cases k <;> decide

/-- `date.fromisoformat` inverts `date.isoformat` on every representable
Python date. -/
theorem fromiso_isoformat (d : Date) (hv : d.Valid) (hy : d.year ≤ 9999) :
    date_fromisoformat d.isoformat = some d := by
  obtain ⟨y, m, dd⟩ := d
  obtain ⟨h1, h2, h3, h4, h5⟩ := hv
  dsimp only at h1 h2 h3 h4 h5 hy
  have hdim : daysInMonth y m ≤ 31 := by
    interval_cases m <;> simp only [daysInMonth] <;> (try split_ifs) <;> omega
  unfold Date.isoformat date_fromisoformat pad4 pad2
  dsimp only
  simp only [List.cons_append, List.nil_append]
  have hd9 : ∀ n : Nat, n % 10 ≤ 9 := fun n => by omega
  rw [if_pos (by
    rw [digitChar_isDigit _ (hd9 _), digitChar_isDigit _ (hd9 _),
      digitChar_isDigit _ (hd9 _), digitChar_isDigit _ (hd9 _),
      digitChar_isDigit _ (hd9 _), digitChar_isDigit _ (hd9 _),
      digitChar_isDigit _ (hd9 _), digitChar_isDigit _ (hd9 _)]
    rfl)]
  simp only [digitVal_digitChar _ (hd9 _)]
  have hyv : y / 1000 % 10 * 1000 + y / 100 % 10 * 100 + y / 10 % 10 * 10 +
      y % 10 = y := by omega
  have hmv : m / 10 % 10 * 10 + m % 10 = m := by omega
  have hdv : dd / 10 % 10 * 10 + dd % 10 = dd := by omega
  rw [hyv, hmv, hdv, if_pos (by
    simp only [Bool.and_eq_true, decide_eq_true_eq]
    omega)]

theorem isEmpty_cons_false (c : Char) (cs : List Char) :
    (⟨c :: cs⟩ : String).isEmpty = false := by
  rw [Bool.eq_false_iff]
  intro h
  rw [String.isEmpty_iff] at h
  exact (List.cons_ne_nil _ _) (congrArg String.data h)

theorem parse_interval_days_pos {s : String} {k : Nat}
    (h : parse_interval_days s = some k) : 1 ≤ k := by
  unfold parse_interval_days at h
  split at h
  · exact absurd h (by simp)
  · split at h
    · exact absurd h (by simp)
    · split at h
      · exact absurd h (by simp)
      · split at h
        · exact absurd h (by simp)
        · split at h
          · exact absurd h (by simp)
          · split at h
            · split at h
              · rw [Option.some_inj] at h
                omega
              · exact absurd h (by simp)
            · exact absurd h (by simp)

/-- C6 (counterexample): a weekly recurring task with a manual future due
date keeps exactly that due after completion — the due does not strictly
advance relative to the prior `due`. -/
theorem complete_task_manual_due_counterexample :
    normalize_recurrence_value (some "weekly") = some "weekly" ∧
    (complete_task { recurrence := .str "weekly", due := some (.s "2024-06-01") }
        ⟨2024, 1, 1⟩ []).1.due = some (.s "2024-06-01") ∧
    ({ recurrence := .str "weekly", due := some (.s "2024-06-01") } :
      Task).due = some (.s "2024-06-01") ∧
    Date.blt ⟨2024, 6, 1⟩ ⟨2024, 6, 1⟩ = false := by
  refine ⟨rfl, rfl, rfl, by decide⟩

/-- C6 (amended): for a task whose retrieved recurrence normalizes to a
fixed keyword or "every N days" cadence, after `complete_task(task, today)`
the stored `due` is the ISO rendering of a date strictly after `today` —
the completion date, which is also the new `last_completed`.  The original
"strictly advances relative to the prior due/last_completed" fails: a
manual future due is returned unchanged (counterexample), and for
ordinal-weekday recurrences the advanced date can even precede the
completion date. -/
theorem complete_task_advances (task : Task) (today : Date)
    (log : List CompletionEntry) (hv : today.Valid) (hy : today.year ≤ 9999)
    (ns : String)
    (hn : normalize_recurrence_value
      (some (pyLower (recStr task.recurrence))) = some ns)
    (hns : ns = "daily" ∨ ns = "weekly" ∨ ns = "bi-weekly" ∨ ns = "monthly" ∨
      ns = "quarterly" ∨ ns = "bi-annual" ∨ ns = "yearly" ∨
      ∃ k, parse_interval_days ns = some k) :
    ∃ nd, (complete_task task today log).1.due = some (.s nd.isoformat) ∧
      Date.blt today nd = true := by
  -- the recurrence key must be a non-empty string
  have htruthy : recTruthy task.recurrence = true := by
    cases hr : task.recurrence with
    | absent =>
      rw [hr, show normalize_recurrence_value
        (some (pyLower (recStr RecVal.absent))) = none from rfl] at hn
      exact absurd hn (by simp)
    | null =>
      rw [hr, show normalize_recurrence_value
        (some (pyLower (recStr RecVal.null))) = none from rfl] at hn
      exact absurd hn (by simp)
    | str s =>
      cases s with
      | mk data =>
        cases data with
        | nil =>
          rw [hr, show normalize_recurrence_value
            (some (pyLower (recStr (RecVal.str ⟨[]⟩)))) = none from rfl] at hn
          exact absurd hn (by simp)
        | cons c cs => simp [recTruthy, isEmpty_cons_false]
  -- the advanced date is strictly after today for every duration cadence
  have hadv : ∃ x, advance_for_recurrence today
      (pyLower (recStr task.recurrence)) = some x ∧
      Date.blt today x = true := by
    unfold advance_for_recurrence
    rw [hn]
    dsimp only
    rcases hns with rfl | rfl | rfl | rfl | rfl | rfl | rfl | ⟨k, hk⟩
    · exact ⟨_, rfl, blt_addDays today 1 (by omega)⟩
    · exact ⟨_, rfl, blt_addDays today 7 (by omega)⟩
    · exact ⟨_, rfl, blt_addDays today 14 (by omega)⟩
    · exact ⟨_, rfl, blt_addMonths today 1 (by omega)⟩
    · exact ⟨_, rfl, blt_addMonths today 3 (by omega)⟩
    · exact ⟨_, rfl, blt_addMonths today 6 (by omega)⟩
    · exact ⟨_, rfl, blt_addYears today 1 (by omega)⟩
    · have hcal : CALENDAR_RECURRENCE_DELTAS ns = none := by
        unfold CALENDAR_RECURRENCE_DELTAS
        split_ifs with e1 e2 e3 e4
        · rw [e1] at hk
          rw [show parse_interval_days "monthly" = none from rfl] at hk
          exact absurd hk (by simp)
        · rw [e2] at hk
          rw [show parse_interval_days "quarterly" = none from rfl] at hk
          exact absurd hk (by simp)
        · rw [e3] at hk
          rw [show parse_interval_days "bi-annual" = none from rfl] at hk
          exact absurd hk (by simp)
        · rw [e4] at hk
          rw [show parse_interval_days "yearly" = none from rfl] at hk
          exact absurd hk (by simp)
        · rfl
      have hdays : RECURRENCE_DAYS ns = none := by
        unfold RECURRENCE_DAYS
        split_ifs with e1 e2 e3 e4 e5 e6 e7
        · rw [e1] at hk
          rw [show parse_interval_days "daily" = none from rfl] at hk
          exact absurd hk (by simp)
        · rw [e2] at hk
          rw [show parse_interval_days "weekly" = none from rfl] at hk
          exact absurd hk (by simp)
        · rw [e3] at hk
          rw [show parse_interval_days "bi-weekly" = none from rfl] at hk
          exact absurd hk (by simp)
        · rw [e4] at hk
          rw [show parse_interval_days "monthly" = none from rfl] at hk
          exact absurd hk (by simp)
        · rw [e5] at hk
          rw [show parse_interval_days "quarterly" = none from rfl] at hk
          exact absurd hk (by simp)
        · rw [e6] at hk
          rw [show parse_interval_days "bi-annual" = none from rfl] at hk
          exact absurd hk (by simp)
        · rw [e7] at hk
          rw [show parse_interval_days "yearly" = none from rfl] at hk
          exact absurd hk (by simp)
        · rfl
      simp only [hcal, hdays, hk]
      exact ⟨_, rfl, blt_addDays today k (parse_interval_days_pos hk)⟩
  obtain ⟨x, hx, hxlt⟩ := hadv
  unfold complete_task
  dsimp only
  rw [if_pos (show recTruthy task.recurrence = true from htruthy)]
  dsimp only
  refine ⟨_, rfl, ?_⟩
  -- analyse the resolver on the updated task
  rw [next_due_eq]
  have hne : (pyLower (recStr task.recurrence)).isEmpty = false := by
    cases hr : task.recurrence with
    | absent => rw [hr] at htruthy; exact absurd htruthy (by decide)
    | null => rw [hr] at htruthy; exact absurd htruthy (by decide)
    | str s =>
      cases s with
      | mk data =>
        cases data with
        | nil => rw [hr] at htruthy; exact absurd htruthy (by decide)
        | cons c cs => exact pyLower_isEmpty_false c cs
  rw [if_neg (by simp [hne])]
  dsimp only
  rw [show parse_date (some (DVal.s today.isoformat)) =
      date_fromisoformat today.isoformat from rfl] at *
  rw [fromiso_isoformat today hv hy]
  cases hdd : parse_date task.due with
  | none =>
    dsimp only
    rw [show (some today).getD today = today from rfl, hx]
    exact hxlt
  | some dd =>
    dsimp only
    rw [show Option.all (fun lc => Date.blt lc dd) (some today) =
        Date.blt today dd from rfl]
    cases hblt : Date.blt today dd with
    | true => exact hblt
    | false =>
      simp only [Bool.false_eq_true, if_false]
      rw [show (some today).getD today = today from rfl, hx]
      exact hxlt

/-- Witness for C6: completing a daily task with no manual due on a
concrete date yields a due strictly after the completion date. -/
theorem complete_task_advances_witness :
    Date.Valid ⟨2024, 3, 10⟩ ∧ (2024 : Nat) ≤ 9999 ∧
    normalize_recurrence_value
      (some (pyLower (recStr (RecVal.str "daily")))) = some "daily" ∧
    (∃ nd, (complete_task { recurrence := .str "daily" } ⟨2024, 3, 10⟩
        []).1.due = some (.s nd.isoformat) ∧
      Date.blt ⟨2024, 3, 10⟩ nd = true) :=
  ⟨by decide, by decide, rfl,
   complete_task_advances { recurrence := .str "daily" } ⟨2024, 3, 10⟩ []
     (by decide) (by decide) "daily" rfl (Or.inl rfl)⟩

end Mindloom
